import Mathlib

/-!
Verification development for the Splitly shared-expense ledger.

The expense-creation form logic is embedded from
`src/frontend/src/components/expenses/CreateExpenseModal.jsx`.
Monetary values entered in the form are JavaScript numbers holding decimal
dollar amounts (`parseFloat`); we model those values as rationals (`ℚ`),
which represents the decimal arithmetic the code performs exactly.
The backend Ledger & Settlement Engine (share computation, net positions,
debt simplification) is not part of the repository snapshot — only its
documentation and its frontend callers are — so those operations are
modelled from the specification, as marked on each definition.
-/

namespace Splitly

/-- Split policy tag, `split_type` in `CreateExpenseModal.jsx`
(`'equal' | 'exact' | 'percentage'`). -/
inductive SplitType
  | equal
  | exact
  | percentage
deriving DecidableEq

/-- One element of the `splits` array built in `handleSubmit`
(`{ user_id, share_amount, share_percentage }`). -/
structure Split where
  user_id : Nat
  share_amount : Option ℚ
  share_percentage : Option ℚ
deriving DecidableEq

/-- The object passed to `onSubmit` in `handleSubmit` (the fields the
claims are about; description, category and date are free-text metadata
carried through unchanged and are omitted). -/
structure ExpensePayload where
  amount : ℚ
  group_id : Option Nat
  split_type : SplitType
  is_personal : Bool
  paid_by : Nat
  splits : List Split
deriving DecidableEq

/-- The component state of `CreateExpenseModal` that `handleSubmit` reads:
`amount` (already through `parseFloat`), `groupId` (empty string modelled
as `none`), `splitType`, the current user id, `paidBy`, the
`selectedParticipants` list, and the `exactAmounts` / `percentages`
objects (keyed records modelled as association lists). -/
structure FormState where
  amount : ℚ
  groupId : Option Nat
  splitType : SplitType
  userId : Nat
  paidBy : Option Nat
  selectedParticipants : List Nat
  exactAmounts : List (Nat × ℚ)
  percentages : List (Nat × ℚ)
deriving DecidableEq

/-- The three validation failures `handleSubmit` can signal via
`toast.error` before submitting anything. -/
inductive SubmitError
  | noParticipants
  | exactMismatch
  | percentageMismatch
deriving DecidableEq

/-- Record lookup with the code's `obj[key] || 0` default. -/
def lookupD (m : List (Nat × ℚ)) (k : Nat) : ℚ :=
  ((m.find? (fun e => e.1 = k)).map Prod.snd).getD 0

/-- `getTotalExactAmount`: `Object.values(exactAmounts).reduce((sum, amt) => sum + amt, 0)`. -/
def getTotalExactAmount (s : FormState) : ℚ :=
  (s.exactAmounts.map Prod.snd).sum

/-- `getTotalPercentage`: `Object.values(percentages).reduce((sum, pct) => sum + pct, 0)`. -/
def getTotalPercentage (s : FormState) : ℚ :=
  (s.percentages.map Prod.snd).sum

/-- `toggleParticipant(userId)`: removes an already-selected participant
(also deleting their entries in `exactAmounts` and `percentages`),
otherwise appends the new participant. -/
def toggleParticipant (s : FormState) (userId : Nat) : FormState :=
  if userId ∈ s.selectedParticipants then
    { s with
      selectedParticipants := s.selectedParticipants.filter (fun i => i ≠ userId)
      exactAmounts := s.exactAmounts.filter (fun e => e.1 ≠ userId)
      percentages := s.percentages.filter (fun e => e.1 ≠ userId) }
  else
    { s with selectedParticipants := s.selectedParticipants ++ [userId] }

/-- The `splits` array built in `handleSubmit`: one entry per selected
participant for a group expense (`share_amount` only for `exact`,
`share_percentage` only for `percentage`, `|| 0` defaults), and a single
self-share of the full amount for a personal expense. -/
def buildSplits (s : FormState) : List Split :=
  match s.groupId with
  | some _ =>
      s.selectedParticipants.map (fun pid =>
        { user_id := pid
          share_amount :=
            if s.splitType = SplitType.exact then some (lookupD s.exactAmounts pid) else none
          share_percentage :=
            if s.splitType = SplitType.percentage then some (lookupD s.percentages pid) else none })
  | none =>
      [{ user_id := s.userId, share_amount := some s.amount, share_percentage := none }]

/-- `handleSubmit`: the group-expense validations (participant list
non-empty; for `exact`, `|Σ amounts − amount| ≤ 0.01`; for `percentage`,
`|Σ percentages − 100| ≤ 0.01`), then the payload handed to `onSubmit`.
An `error` result models the early `toast.error(...); return` paths, on
which nothing is submitted. -/
def handleSubmit (s : FormState) : Except SubmitError ExpensePayload :=
  match s.groupId with
  | some gid =>
      if s.selectedParticipants.length = 0 then
        Except.error SubmitError.noParticipants
      else if s.splitType = SplitType.exact ∧ |getTotalExactAmount s - s.amount| > 1/100 then
        Except.error SubmitError.exactMismatch
      else if s.splitType = SplitType.percentage ∧ |getTotalPercentage s - 100| > 1/100 then
        Except.error SubmitError.percentageMismatch
      else
        Except.ok
          { amount := s.amount
            group_id := some gid
            split_type := s.splitType
            is_personal := false
            paid_by := s.paidBy.getD s.userId
            splits := buildSplits s }
  | none =>
      Except.ok
        { amount := s.amount
          group_id := none
          split_type := s.splitType
          is_personal := true
          paid_by := s.paidBy.getD s.userId
          splits := buildSplits s }

/-- The per-user debt totals of the Settlements page
(`src/unnamed/part_004`, lines 38–46): `totalOwed` sums the absolute
values of the negative debt amounts, `totalToReceive` sums the positive
ones; both are plain JavaScript number arithmetic over dollar values. -/
def totalOwed (debts : List ℚ) : ℚ :=
  ((debts.filter (fun d => d < 0)).map (fun d => |d|)).sum

/-- `totalToReceive` from `src/unnamed/part_004`, lines 42–44. -/
def totalToReceive (debts : List ℚ) : ℚ :=
  (debts.filter (fun d => d > 0)).sum

/-- `netBalance = totalToReceive - totalOwed` (`src/unnamed/part_004`, line 46). -/
def netBalance (debts : List ℚ) : ℚ :=
  totalToReceive debts - totalOwed debts

/-- A rational dollar amount is an integer count of minor currency units
(cents) when scaling by 100 lands on an integer. -/
def isIntegerCents (q : ℚ) : Prop :=
  (q * 100).den = 1

instance (q : ℚ) : Decidable (isIntegerCents q) := by
  unfold isIntegerCents; infer_instance

/-- Modelled from the spec: the backend Split Engine's `computeShares` for
the `equal` policy is not in the repository snapshot (only its
documentation and frontend callers are). Per §4.1, the total in cents is
divided by the participant count and the remainder is handed out one cent
at a time to the first `r` participants in the fixed participant order.
This helper distributes `r` extra cents of `base`-cent shares. -/
def equalSplitGo (base : Nat) : Nat → List Nat → List (Nat × Nat)
  | _, [] => []
  | 0, u :: rest => (u, base) :: equalSplitGo base 0 rest
  | r + 1, u :: rest => (u, base + 1) :: equalSplitGo base r rest

/-- Modelled from the spec: `computeShares` for the `equal` policy —
`total` cents split over `ps`, quotient as the base share, remainder
distributed one cent at a time to the first participants. -/
def computeSharesEqual (total : Nat) (ps : List Nat) : List (Nat × Nat) :=
  equalSplitGo (total / ps.length) (total % ps.length) ps

theorem equalSplitGo_sum (base : Nat) :
    ∀ (ps : List Nat) (r : Nat),
      ((equalSplitGo base r ps).map Prod.snd).sum = ps.length * base + min r ps.length := by
  intro ps
  induction ps with
  | nil => intro r; simp [equalSplitGo]
  | cons u rest ih =>
      intro r
      cases r with
      | zero => simp [equalSplitGo, ih]; ring
      | succ r =>
          simp only [equalSplitGo, List.map_cons, List.sum_cons, ih, List.length_cons,
            Nat.succ_min_succ]
          ring_nf
          omega

theorem equalSplitGo_keys (base : Nat) :
    ∀ (ps : List Nat) (r : Nat), (equalSplitGo base r ps).map Prod.fst = ps := by
  intro ps
  induction ps with
  | nil => intro r; cases r <;> simp [equalSplitGo]
  | cons u rest ih => intro r; cases r <;> simp [equalSplitGo, ih]

/-- Claim C3 (spec-modelled): for an equal split of a positive total over a
non-empty participant list, the shares sum to the total exactly, and there
is exactly one share per participant in the fixed input order (so the
computation, being a pure function of its inputs, reproduces the same
shares on recomputation). -/
theorem claimC3_theorem (total : Nat) (ps : List Nat) (hne : ps ≠ []) (hpos : 0 < total) :
    ((computeSharesEqual total ps).map Prod.snd).sum = total ∧
    (computeSharesEqual total ps).map Prod.fst = ps := by
  refine ⟨?_, equalSplitGo_keys _ ps _⟩
  have hlen : 0 < ps.length := List.length_pos.mpr hne
  have hmod : total % ps.length < ps.length := Nat.mod_lt _ hlen
  have hdm := Nat.div_add_mod total ps.length
  rw [computeSharesEqual, equalSplitGo_sum, min_eq_left hmod.le]
  omega

/-- Witness for C3: $10.00 over three participants gives shares
334, 333, 333 cents, matching the spec's adversarial example. -/
theorem claimC3_witness :
    ((computeSharesEqual 1000 [1, 2, 3]).map Prod.snd).sum = 1000 ∧
    (computeSharesEqual 1000 [1, 2, 3]).map Prod.fst = [1, 2, 3] :=
  claimC3_theorem 1000 [1, 2, 3] (by decide) (by decide)

/-- Form state exhibiting a one-cent discrepancy for an exact split:
total $10.00, supplied exact amounts sum to $10.01. -/
def c1State : FormState :=
  { amount := 10
    groupId := some 1
    splitType := SplitType.exact
    userId := 1
    paidBy := some 1
    selectedParticipants := [1]
    exactAmounts := [(1, 1001/100)]
    percentages := [] }

theorem handleSubmit_exact_result (s : FormState) (g : Nat) (hg : s.groupId = some g)
    (hne : s.selectedParticipants.length ≠ 0) (hexact : s.splitType = SplitType.exact) :
    handleSubmit s =
      if |getTotalExactAmount s - s.amount| > 1/100 then
        Except.error SubmitError.exactMismatch
      else
        Except.ok
          { amount := s.amount, group_id := some g, split_type := s.splitType,
            is_personal := false, paid_by := s.paidBy.getD s.userId,
            splits := buildSplits s } := by
  rcases s with ⟨amount, groupId, splitType, userId, paidBy, parts, ex, pc⟩
  simp only at hg hne hexact
  subst hg hexact
  by_cases hc : |getTotalExactAmount ⟨amount, some g, SplitType.exact, userId, paidBy, parts, ex, pc⟩ - amount| > 1/100 <;>
    simp [handleSubmit, hne, hc]

/-- Claim C1 counterexample: the claim says exact-split creation fails
whenever the supplied amounts differ from the total by any nonzero
amount; here they differ by one cent, yet `handleSubmit` submits
successfully (the code tolerates `|diff| ≤ 0.01`). -/
theorem claimC1_counterexample :
    getTotalExactAmount c1State ≠ c1State.amount ∧ (handleSubmit c1State).isOk = true := by
  have hdiff : getTotalExactAmount c1State - c1State.amount = 1/100 := by
    norm_num [c1State, getTotalExactAmount]
  constructor
  · intro h
    rw [h, sub_self] at hdiff
    norm_num at hdiff
  · have hc : ¬ |getTotalExactAmount c1State - c1State.amount| > 1/100 := by
      rw [hdiff, abs_of_nonneg (by norm_num : (0:ℚ) ≤ 1/100)]
      norm_num
    rw [handleSubmit_exact_result c1State 1 rfl (by decide) rfl, if_neg hc]
    rfl

/-- Claim C1 as amended: for a group expense with a nonempty participant
list under the exact policy, `handleSubmit` fails with the split-mismatch
error iff the supplied amounts differ from the total by more than 0.01
(discrepancies of at most one cent are accepted); when within the
tolerance it submits, and on the error path nothing is submitted. -/
theorem claimC1_theorem (s : FormState) (g : Nat) (hg : s.groupId = some g)
    (hne : s.selectedParticipants.length ≠ 0) (hexact : s.splitType = SplitType.exact) :
    (handleSubmit s = Except.error SubmitError.exactMismatch ↔
      |getTotalExactAmount s - s.amount| > 1/100) ∧
    (¬ |getTotalExactAmount s - s.amount| > 1/100 → (handleSubmit s).isOk = true) := by
  have hres := handleSubmit_exact_result s g hg hne hexact
  constructor
  · constructor
    · intro he
      by_contra hc
      rw [hres, if_neg hc] at he
      exact Except.noConfusion he
    · intro hc
      rw [hres, if_pos hc]
  · intro hc
    rw [hres, if_neg hc]
    rfl

/-- State with a $2 exact-split discrepancy, used to witness C1. -/
def c1wState : FormState :=
  { amount := 10
    groupId := some 1
    splitType := SplitType.exact
    userId := 1
    paidBy := some 1
    selectedParticipants := [1, 2]
    exactAmounts := [(1, 6), (2, 6)]
    percentages := [] }

/-- Witness for C1 (amended), at the concrete state `c1wState`. -/
theorem claimC1_witness :
    (handleSubmit c1wState = Except.error SubmitError.exactMismatch ↔
      |getTotalExactAmount c1wState - c1wState.amount| > 1/100) ∧
    (¬ |getTotalExactAmount c1wState - c1wState.amount| > 1/100 →
      (handleSubmit c1wState).isOk = true) :=
  claimC1_theorem c1wState 1 rfl (by decide) rfl

/-- Claim C4: for a group expense with a nonempty participant list under
the percentage policy, `handleSubmit` fails with the split-mismatch error
iff the supplied percentages differ from 100 by more than 0.01, and
submits a payload whenever they sum to 100 within that tolerance. -/
theorem handleSubmit_percentage_result (s : FormState) (g : Nat) (hg : s.groupId = some g)
    (hne : s.selectedParticipants.length ≠ 0) (hpct : s.splitType = SplitType.percentage) :
    handleSubmit s =
      if |getTotalPercentage s - 100| > 1/100 then
        Except.error SubmitError.percentageMismatch
      else
        Except.ok
          { amount := s.amount, group_id := some g, split_type := s.splitType,
            is_personal := false, paid_by := s.paidBy.getD s.userId,
            splits := buildSplits s } := by
  rcases s with ⟨amount, groupId, splitType, userId, paidBy, parts, ex, pc⟩
  simp only at hg hne hpct
  subst hg hpct
  by_cases hc : |getTotalPercentage ⟨amount, some g, SplitType.percentage, userId, paidBy, parts, ex, pc⟩ - 100| > 1/100 <;>
    simp [handleSubmit, hne, hc]

theorem claimC4_theorem (s : FormState) (g : Nat) (hg : s.groupId = some g)
    (hne : s.selectedParticipants.length ≠ 0) (hpct : s.splitType = SplitType.percentage) :
    (handleSubmit s = Except.error SubmitError.percentageMismatch ↔
      |getTotalPercentage s - 100| > 1/100) ∧
    (¬ |getTotalPercentage s - 100| > 1/100 → (handleSubmit s).isOk = true) := by
  have hres := handleSubmit_percentage_result s g hg hne hpct
  constructor
  · constructor
    · intro he
      by_contra hc
      rw [hres, if_neg hc] at he
      exact Except.noConfusion he
    · intro hc
      rw [hres, if_pos hc]
  · intro hc
    rw [hres, if_neg hc]
    rfl

/-- State whose percentages sum to 50, used to witness C4. -/
def c4wState : FormState :=
  { amount := 10
    groupId := some 1
    splitType := SplitType.percentage
    userId := 1
    paidBy := some 1
    selectedParticipants := [1, 2]
    exactAmounts := []
    percentages := [(1, 25), (2, 25)] }

/-- Witness for C4, at the concrete state `c4wState`. -/
theorem claimC4_witness :
    (handleSubmit c4wState = Except.error SubmitError.percentageMismatch ↔
      |getTotalPercentage c4wState - 100| > 1/100) ∧
    (¬ |getTotalPercentage c4wState - 100| > 1/100 →
      (handleSubmit c4wState).isOk = true) :=
  claimC4_theorem c4wState 1 rfl (by decide) rfl

/-- Claim C7: a group-expense submission with an empty participant list
fails fast with the no-participants validation error — `handleSubmit`
returns the error before any split is built, so no shares are produced. -/
theorem claimC7_theorem (s : FormState) (g : Nat) (hg : s.groupId = some g)
    (hempty : s.selectedParticipants = []) :
    handleSubmit s = Except.error SubmitError.noParticipants := by
  rcases s with ⟨amount, groupId, splitType, userId, paidBy, parts, ex, pc⟩
  simp only at hg hempty
  subst hg hempty
  simp [handleSubmit]

/-- Witness for C7. -/
theorem claimC7_witness :
    handleSubmit
      { amount := 10, groupId := some 1, splitType := SplitType.equal, userId := 1,
        paidBy := some 1, selectedParticipants := [],
        exactAmounts := [], percentages := [] } =
      Except.error SubmitError.noParticipants :=
  claimC7_theorem _ 1 rfl rfl

/-- Group expense with a total of zero under the equal policy. -/
def c8State : FormState :=
  { amount := 0
    groupId := some 1
    splitType := SplitType.equal
    userId := 1
    paidBy := some 1
    selectedParticipants := [1, 2]
    exactAmounts := []
    percentages := [] }

/-- Claim C8 counterexample: the claim says a non-positive total fails
fast with a validation error and produces no shares; here the total is
zero, yet `handleSubmit` submits the expense together with its two
shares. -/
theorem claimC8_counterexample :
    c8State.amount ≤ 0 ∧
    handleSubmit c8State =
      Except.ok
        { amount := 0, group_id := some 1, split_type := SplitType.equal,
          is_personal := false, paid_by := 1,
          splits := [{ user_id := 1, share_amount := none, share_percentage := none },
                     { user_id := 2, share_amount := none, share_percentage := none }] } := by
  exact ⟨by decide, rfl⟩

/-- Claim C8 as amended: `handleSubmit` performs no positivity check on
the total; for a group expense under the equal policy with a nonempty
participant list, submission succeeds for any total, including zero and
negative values. -/
theorem claimC8_theorem (s : FormState) (g : Nat) (hg : s.groupId = some g)
    (hne : s.selectedParticipants.length ≠ 0) (heq : s.splitType = SplitType.equal) :
    ∃ p, handleSubmit s = Except.ok p ∧ p.amount = s.amount := by
  rcases s with ⟨amount, groupId, splitType, userId, paidBy, parts, ex, pc⟩
  simp only at hg hne heq
  subst hg heq
  simp [handleSubmit, hne]

/-- Witness for C8 (amended): a negative total of −$5 is submitted. -/
theorem claimC8_witness :
    ∃ p, handleSubmit
      { amount := -5, groupId := some 1, splitType := SplitType.equal, userId := 1,
        paidBy := some 1, selectedParticipants := [1, 2],
        exactAmounts := [], percentages := [] } = Except.ok p ∧
      p.amount = (-5 : ℚ) :=
  claimC8_theorem _ 1 rfl (by decide) rfl

/-- Claim C9: `toggleParticipant` preserves distinctness of the selected
participant list (its two branches filter out or freshly append a user
id), and whenever `handleSubmit` submits a payload from a state with
distinct selected participants, the built splits list never contains two
entries with the same user id. -/
theorem handleSubmit_ok_splits (s : FormState) (p : ExpensePayload)
    (hok : handleSubmit s = Except.ok p) : p.splits = buildSplits s := by
  rcases s with ⟨amount, groupId, splitType, userId, paidBy, parts, ex, pc⟩
  cases groupId with
  | none =>
      simp only [handleSubmit] at hok
      injection hok with h
      rw [← h]
  | some g =>
      simp only [handleSubmit] at hok
      split at hok
      · exact Except.noConfusion hok
      · split at hok
        · exact Except.noConfusion hok
        · split at hok
          · exact Except.noConfusion hok
          · injection hok with h
            rw [← h]

theorem claimC9_theorem :
    (∀ (s : FormState) (u : Nat), s.selectedParticipants.Nodup →
      (toggleParticipant s u).selectedParticipants.Nodup) ∧
    (∀ (s : FormState) (p : ExpensePayload), s.selectedParticipants.Nodup →
      handleSubmit s = Except.ok p → (p.splits.map Split.user_id).Nodup) := by
  constructor
  · intro s u h
    unfold toggleParticipant
    split
    · exact h.filter _
    · next hmem => simp [List.nodup_append, h, hmem]
  · intro s p h hok
    rw [handleSubmit_ok_splits s p hok]
    rcases s with ⟨amount, groupId, splitType, userId, paidBy, parts, ex, pc⟩
    simp only at h
    cases groupId with
    | none => simp [buildSplits]
    | some g =>
        simp only [buildSplits, List.map_map]
        simpa [Function.comp_def] using h

/-- Witness for C9: toggling a fresh user keeps the list duplicate-free,
and a submitted two-participant payload has distinct split user ids. -/
theorem claimC9_witness :
    (toggleParticipant c8State 5).selectedParticipants.Nodup ∧
    (({ amount := 0, group_id := some 1, split_type := SplitType.equal,
        is_personal := false, paid_by := 1,
        splits := [{ user_id := 1, share_amount := none, share_percentage := none },
                   { user_id := 2, share_amount := none, share_percentage := none }] :
        ExpensePayload }).splits.map Split.user_id).Nodup :=
  ⟨claimC9_theorem.1 c8State 5 (by decide),
   claimC9_theorem.2 c8State _ (by decide) (by rfl)⟩

/-- Claim C10: for a submission with no group selected, `handleSubmit`
always succeeds and the splits list is exactly one entry for the
submitting user, with the parsed total as its share amount and a null
share percentage. -/
theorem claimC10_theorem (s : FormState) (hg : s.groupId = none) :
    ∃ p, handleSubmit s = Except.ok p ∧
      p.splits = [{ user_id := s.userId, share_amount := some s.amount,
                    share_percentage := none }] := by
  rcases s with ⟨amount, groupId, splitType, userId, paidBy, parts, ex, pc⟩
  simp only at hg
  subst hg
  exact ⟨_, rfl, rfl⟩

/-- Witness for C10: a personal expense of $7.50 yields exactly the
single self-share. -/
theorem claimC10_witness :
    ∃ p, handleSubmit
      { amount := 15/2, groupId := none, splitType := SplitType.equal, userId := 42,
        paidBy := none, selectedParticipants := [],
        exactAmounts := [], percentages := [] } = Except.ok p ∧
      p.splits = [{ user_id := 42, share_amount := some (15/2 : ℚ),
                    share_percentage := none }] :=
  claimC10_theorem _ rfl

/-- Exact amounts of half a cent each, summing to one cent: values the
form accepts and sums in ordinary JavaScript number (dollar) arithmetic. -/
def c2State : FormState :=
  { amount := 1/100
    groupId := some 1
    splitType := SplitType.exact
    userId := 1
    paidBy := some 1
    selectedParticipants := [1, 2]
    exactAmounts := [(1, 1/200), (2, 1/200)]
    percentages := [] }

/-- Claim C2 (code bug): the claim requires every monetary amount in
balance computation to be an integer count of minor units with no binary
floating point; the code stores and sums amounts as floating-point dollar
values. Here a half-cent share amount — not an integer number of cents —
passes validation and is submitted, and the Settlements page's debt
total over the same value is likewise a fractional number of cents. -/
theorem claimC2_theorem :
    (handleSubmit c2State).isOk = true ∧
    (buildSplits c2State).map Split.share_amount = [some (1/200), some (1/200)] ∧
    ¬ isIntegerCents ((1 : ℚ)/200) ∧
    ¬ isIntegerCents (totalOwed [-(1/200)]) := by
  refine ⟨?_, ?_, ?_, ?_⟩
  · have hdiff : getTotalExactAmount c2State - c2State.amount = 0 := by
      norm_num [c2State, getTotalExactAmount]
    have hc : ¬ |getTotalExactAmount c2State - c2State.amount| > 1/100 := by
      rw [hdiff, abs_zero]
      norm_num
    rw [handleSubmit_exact_result c2State 1 rfl (by decide) rfl, if_neg hc]
    rfl
  · norm_num [buildSplits, c2State, lookupD]
  · norm_num [isIntegerCents]
  · have ht : totalOwed [-(1/200 : ℚ)] = 1/200 := by
      simp [totalOwed, show (-(1/200) : ℚ) < 0 by norm_num, abs_neg,
        abs_of_nonneg (show (0:ℚ) ≤ 1/200 by norm_num)]
    rw [ht]
    norm_num [isIntegerCents]

/-- Modelled from the spec: the Balance Ledger's data model (§3, §4.2) —
the backend ledger is absent from the repository snapshot. An
`ExpenseShare` is a user id plus the Money amount that user owes for the
expense, in integer minor units (cents). -/
structure ExpenseShare where
  user : Nat
  amount : Int
deriving DecidableEq

/-- Modelled from the spec: an Expense as the ledger consumes it — the
payer and the participant shares. -/
structure ExpenseRec where
  payer : Nat
  shares : List ExpenseShare
deriving DecidableEq

/-- Modelled from the spec: a Settlement — payer, receiver and a Money
amount. -/
structure SettlementRec where
  payer : Nat
  receiver : Nat
  amount : Int
deriving DecidableEq

/-- A directed debt record `(debtor, creditor, amount)`: the debtor owes
the creditor the amount. -/
abbrev DebtEntry := Nat × Nat × Int

/-- Modelled from the spec (§4.2 step 1): every share whose user is not
the payer records that the share's user owes the payer the share amount;
a participant's share of their own expense is a no-op. -/
def expenseEntries (e : ExpenseRec) : List DebtEntry :=
  (e.shares.filter (fun sh => sh.user ≠ e.payer)).map (fun sh => (sh.user, e.payer, sh.amount))

/-- Modelled from the spec (§4.2 step 2): a settlement reduces the
payer's debt to the receiver by the settlement amount. -/
def settlementEntry (s : SettlementRec) : DebtEntry :=
  (s.payer, s.receiver, -s.amount)

/-- All directed debt records of a group's history. -/
def ledgerEntries (es : List ExpenseRec) (ss : List SettlementRec) : List DebtEntry :=
  (es.map expenseEntries).flatten ++ ss.map settlementEntry

/-- What one directed debt record contributes to a user's net position:
positive means "is owed", negative means "owes". -/
def entryContribution (ent : DebtEntry) (u : Nat) : Int :=
  (if ent.2.1 = u then ent.2.2 else 0) - (if ent.1 = u then ent.2.2 else 0)

/-- Net position of a user over a list of directed debt records. -/
def netPosOf (L : List DebtEntry) (u : Nat) : Int :=
  (L.map (fun ent => entryContribution ent u)).sum

/-- Modelled from the spec (§4.2 steps 3–4): `computeNetPositions` —
each user's single signed net position, recomputed from the full history
of expenses and settlements. -/
def netPosition (es : List ExpenseRec) (ss : List SettlementRec) (u : Nat) : Int :=
  netPosOf (ledgerEntries es ss) u

theorem netPosOf_sum (U : Finset Nat) :
    ∀ L : List DebtEntry, (∀ ent ∈ L, ent.1 ∈ U ∧ ent.2.1 ∈ U) →
      ∑ u ∈ U, netPosOf L u = 0 := by
  intro L
  induction L with
  | nil => intro _; simp [netPosOf]
  | cons ent L ih =>
      intro hcov
      have hent := hcov ent (List.mem_cons_self ent L)
      have hrest : ∀ e ∈ L, e.1 ∈ U ∧ e.2.1 ∈ U :=
        fun e he => hcov e (List.mem_cons_of_mem _ he)
      have hexp : ∀ u, netPosOf (ent :: L) u = entryContribution ent u + netPosOf L u := by
        intro u; simp [netPosOf]
      have h1 : ∑ u ∈ U, (if ent.2.1 = u then ent.2.2 else 0) = ent.2.2 := by
        rw [Finset.sum_ite_eq]
        exact if_pos hent.2
      have h2 : ∑ u ∈ U, (if ent.1 = u then ent.2.2 else 0) = ent.2.2 := by
        rw [Finset.sum_ite_eq]
        exact if_pos hent.1
      calc ∑ u ∈ U, netPosOf (ent :: L) u
          = ∑ u ∈ U, (entryContribution ent u + netPosOf L u) :=
            Finset.sum_congr rfl (fun u _ => hexp u)
        _ = (∑ u ∈ U, entryContribution ent u) + ∑ u ∈ U, netPosOf L u :=
            Finset.sum_add_distrib
        _ = 0 := by
            rw [ih hrest]
            simp only [entryContribution, Finset.sum_sub_distrib, h1, h2, sub_self, add_zero]

/-- Claim C5 (spec-modelled): for any expenses and settlements of a
group, over any user set covering every debtor and creditor that appears,
the net positions sum to exactly zero — money is conserved. -/
theorem claimC5_theorem (es : List ExpenseRec) (ss : List SettlementRec) (U : Finset Nat)
    (hcov : ∀ ent ∈ ledgerEntries es ss, ent.1 ∈ U ∧ ent.2.1 ∈ U) :
    ∑ u ∈ U, netPosition es ss u = 0 :=
  netPosOf_sum U (ledgerEntries es ss) hcov

/-- The spec's example history: user 1 pays $30.00 split equally over
users 1, 2, 3, then user 3 settles $10.00 back to user 1. -/
def c5Expenses : List ExpenseRec :=
  [{ payer := 1, shares := [⟨1, 1000⟩, ⟨2, 1000⟩, ⟨3, 1000⟩] }]

/-- The settlement of the C5 witness scenario. -/
def c5Settlements : List SettlementRec :=
  [{ payer := 3, receiver := 1, amount := 1000 }]

/-- Witness for C5: at the spec's example scenario, with the group
{1, 2, 3}, the coverage hypothesis holds and the positions sum to zero. -/
theorem claimC5_witness :
    (∀ ent ∈ ledgerEntries c5Expenses c5Settlements,
      ent.1 ∈ ({1, 2, 3} : Finset Nat) ∧ ent.2.1 ∈ ({1, 2, 3} : Finset Nat)) ∧
    ∑ u ∈ ({1, 2, 3} : Finset Nat), netPosition c5Expenses c5Settlements u = 0 :=
  ⟨by decide, claimC5_theorem c5Expenses c5Settlements {1, 2, 3} (by decide)⟩

/-- Modelled from the spec: a `SimplifiedTransaction` (§3) — a payment
from a debtor to a creditor. -/
structure Tx where
  debtor : Nat
  creditor : Nat
  amount : Int
deriving DecidableEq

/-- Modelled from the spec: applying one emitted transaction as a payment
against the net positions (§4.3 step 2, "decrement both remaining
balances"): the paying debtor's position rises by the amount, the
receiving creditor's position falls by it. -/
def applyTx (pos : List (Nat × Int)) (t : Tx) : List (Nat × Int) :=
  pos.map (fun e =>
    if e.1 = t.debtor then (e.1, e.2 + t.amount)
    else if e.1 = t.creditor then (e.1, e.2 - t.amount)
    else e)

/-- Applying a whole settlement plan as successive payments. -/
def applyTxs (pos : List (Nat × Int)) (ts : List Tx) : List (Nat × Int) :=
  ts.foldl applyTx pos

/-- Modelled from the spec (§4.3): the greedy loop — repeatedly match the
creditor with the largest remaining positive balance against the debtor
with the largest remaining absolute negative balance (ties broken by the
stable list order), settle the minimum of the two magnitudes, and
decrement both balances; stop when no creditor or no debtor remains.
`fuel` bounds the recursion; each step zeroes at least one participant. -/
def simplifyGo : Nat → List (Nat × Int) → List Tx
  | 0, _ => []
  | fuel + 1, pos =>
      match (pos.filter (fun x => 0 < x.2)).argmax (fun x => x.2),
            (pos.filter (fun x => x.2 < 0)).argmax (fun x => -x.2) with
      | some c, some d =>
          let t : Tx := ⟨d.1, c.1, min c.2 (-d.2)⟩
          t :: simplifyGo fuel (applyTx pos t)
      | _, _ => []

/-- Modelled from the spec: `simplifySettlements` over the per-user net
positions; the list length bounds the number of greedy steps (at most one
per participant). -/
def simplifySettlements (pos : List (Nat × Int)) : List Tx :=
  simplifyGo pos.length pos

theorem applyTx_keys (pos : List (Nat × Int)) (t : Tx) :
    (applyTx pos t).map Prod.fst = pos.map Prod.fst := by
  induction pos with
  | nil => rfl
  | cons e l ih =>
      simp only [applyTx, List.map_cons] at ih ⊢
      split_ifs with h1 h2 <;> simp [ih]

theorem sum_nonpos_list (l : List Int) (h : ∀ x ∈ l, x ≤ 0) : l.sum ≤ 0 := by
  induction l with
  | nil => simp
  | cons x l ih =>
      have hx := h x (List.mem_cons_self x l)
      have hl := ih (fun y hy => h y (List.mem_cons_of_mem _ hy))
      simp only [List.sum_cons]
      omega

theorem sum_nonneg_list (l : List Int) (h : ∀ x ∈ l, 0 ≤ x) : 0 ≤ l.sum := by
  induction l with
  | nil => simp
  | cons x l ih =>
      have hx := h x (List.mem_cons_self x l)
      have hl := ih (fun y hy => h y (List.mem_cons_of_mem _ hy))
      simp only [List.sum_cons]
      omega

theorem all_zero_of_nonpos_sum (l : List Int) (h : ∀ x ∈ l, x ≤ 0) (hs : l.sum = 0) :
    ∀ x ∈ l, x = 0 := by
  induction l with
  | nil => simp
  | cons x l ih =>
      have hx := h x (List.mem_cons_self x l)
      have hl := sum_nonpos_list l (fun y hy => h y (List.mem_cons_of_mem _ hy))
      simp only [List.sum_cons] at hs
      intro y hy
      rcases List.mem_cons.mp hy with rfl | hmem
      · omega
      · exact ih (fun z hz => h z (List.mem_cons_of_mem _ hz)) (by omega) y hmem

theorem all_zero_of_nonneg_sum (l : List Int) (h : ∀ x ∈ l, 0 ≤ x) (hs : l.sum = 0) :
    ∀ x ∈ l, x = 0 := by
  induction l with
  | nil => simp
  | cons x l ih =>
      have hx := h x (List.mem_cons_self x l)
      have hl := sum_nonneg_list l (fun y hy => h y (List.mem_cons_of_mem _ hy))
      simp only [List.sum_cons] at hs
      intro y hy
      rcases List.mem_cons.mp hy with rfl | hmem
      · omega
      · exact ih (fun z hz => h z (List.mem_cons_of_mem _ hz)) (by omega) y hmem

theorem countP_lt {α : Type} (p q : α → Bool) :
    ∀ l : List α, (∀ x ∈ l, q x = true → p x = true) →
      (∃ a ∈ l, p a = true ∧ q a = false) → l.countP q < l.countP p := by
  intro l
  induction l with
  | nil =>
      rintro _ ⟨a, ha, _⟩
      cases ha
  | cons e l ih =>
      rintro hmono ⟨a, hal, hpa, hqa⟩
      rw [List.countP_cons, List.countP_cons]
      have hmono' : ∀ x ∈ l, q x = true → p x = true :=
        fun x hx => hmono x (List.mem_cons_of_mem _ hx)
      rcases List.mem_cons.mp hal with rfl | hmem
      · have hle : l.countP q ≤ l.countP p := List.countP_mono_left hmono'
        rw [hpa, hqa]
        simp only [Bool.false_eq_true, if_true, if_false]
        omega
      · have hlt := ih hmono' ⟨a, hmem, hpa, hqa⟩
        have hif : (if q e = true then 1 else 0) ≤ (if p e = true then 1 else 0) := by
          by_cases hqe : q e = true
          · simp [hqe, hmono e (List.mem_cons_self e l) hqe]
          · simp [hqe]
        omega

theorem countP_key_eq_one (pos : List (Nat × Int)) (hnd : (pos.map Prod.fst).Nodup)
    (e : Nat × Int) (he : e ∈ pos) : pos.countP (fun x => x.1 = e.1) = 1 := by
  induction pos with
  | nil => cases he
  | cons hd l ih =>
      rw [List.countP_cons]
      simp only [List.map_cons, List.nodup_cons] at hnd
      rcases List.mem_cons.mp he with rfl | hmem
      · have h0 : l.countP (fun x => x.1 = e.1) = 0 := by
          rw [List.countP_eq_zero]
          intro a ha
          simp only [decide_eq_true_eq]
          intro hak
          exact hnd.1 (by rw [← hak]; exact List.mem_map_of_mem Prod.fst ha)
        rw [h0]
        simp
      · have hne : ¬ hd.1 = e.1 := by
          intro hh
          exact hnd.1 (by rw [hh]; exact List.mem_map_of_mem Prod.fst hmem)
        rw [ih hnd.2 hmem]
        simp [hne]

theorem applyTx_sum (pos : List (Nat × Int)) (t : Tx) :
    ((applyTx pos t).map Prod.snd).sum =
      (pos.map Prod.snd).sum
        + (pos.countP (fun e => e.1 = t.debtor) : Int) * t.amount
        - (pos.countP (fun e => decide (¬ e.1 = t.debtor ∧ e.1 = t.creditor)) : Int) * t.amount := by
  induction pos with
  | nil => simp [applyTx]
  | cons e l ih =>
      have hstep : applyTx (e :: l) t =
          (if e.1 = t.debtor then (e.1, e.2 + t.amount)
           else if e.1 = t.creditor then (e.1, e.2 - t.amount) else e) :: applyTx l t := rfl
      rw [hstep, List.map_cons, List.sum_cons, List.countP_cons, List.countP_cons, ih]
      by_cases h1 : e.1 = t.debtor
      · have hp2 : ¬ (¬ e.1 = t.debtor ∧ e.1 = t.creditor) := fun hh => hh.1 h1
        simp only [if_pos h1, h1, hp2]
        simp
        ring
      · by_cases h2 : e.1 = t.creditor
        · have h3 : ¬ t.creditor = t.debtor := fun hh => h1 (h2.trans hh)
          have hp2 : (¬ e.1 = t.debtor ∧ e.1 = t.creditor) := ⟨h1, h2⟩
          rw [if_neg h1, if_pos h2]
          simp only [h1, hp2]
          simp [h3]
          ring
        · have hp2 : ¬ (¬ e.1 = t.debtor ∧ e.1 = t.creditor) := fun hh => h2 hh.2
          rw [if_neg h1, if_neg h2]
          simp [h1, h2, hp2]
          ring

theorem countP_other_key (pos : List (Nat × Int)) (dk ck : Nat) (hdc : dk ≠ ck) :
    pos.countP (fun e => decide (¬ e.1 = dk ∧ e.1 = ck)) =
      pos.countP (fun e => e.1 = ck) := by
  induction pos with
  | nil => rfl
  | cons e l ih =>
      rw [List.countP_cons, List.countP_cons, ih]
      by_cases h : e.1 = ck
      · have h2 : ¬ e.1 = dk := by rw [h]; exact fun hh => hdc hh.symm
        have h3 : ¬ ck = dk := fun hh => hdc hh.symm
        simp [h, h2, h3]
      · simp [h]

theorem applyTx_sum_zero (pos : List (Nat × Int)) (c d : Nat × Int) (a : Int)
    (hnd : (pos.map Prod.fst).Nodup) (hc : c ∈ pos) (hd : d ∈ pos) (hdc : d.1 ≠ c.1)
    (hsum : (pos.map Prod.snd).sum = 0) :
    ((applyTx pos ⟨d.1, c.1, a⟩).map Prod.snd).sum = 0 := by
  rw [applyTx_sum, hsum]
  have h1 : pos.countP (fun e => e.1 = d.1) = 1 := countP_key_eq_one pos hnd d hd
  have h2 : pos.countP (fun e => e.1 = c.1) = 1 := countP_key_eq_one pos hnd c hc
  rw [countP_other_key pos d.1 c.1 hdc]
  simp only [h1, h2]
  push_cast
  ring

/-- Number of participants with a nonzero remaining balance. -/
def countNZ (pos : List (Nat × Int)) : Nat :=
  pos.countP (fun e => e.2 ≠ 0)

theorem countNZ_applyTx_lt (pos : List (Nat × Int)) (c d : Nat × Int)
    (hnd : (pos.map Prod.fst).Nodup) (hc : c ∈ pos) (hd : d ∈ pos)
    (hcpos : 0 < c.2) (hdneg : d.2 < 0) :
    countNZ (applyTx pos ⟨d.1, c.1, min c.2 (-d.2)⟩) < countNZ pos := by
  have hdc : d.1 ≠ c.1 := by
    intro h
    have hde := List.inj_on_of_nodup_map hnd hd hc h
    rw [hde] at hdneg
    omega
  rw [countNZ, countNZ, applyTx, List.countP_map]
  apply countP_lt
  · intro e he
    simp only [Function.comp_apply, decide_eq_true_eq]
    intro hnew hold
    apply hnew
    by_cases h1 : e.1 = d.1
    · have : e = d := List.inj_on_of_nodup_map hnd he hd h1
      rw [this] at hold
      omega
    · by_cases h2 : e.1 = c.1
      · have : e = c := List.inj_on_of_nodup_map hnd he hc h2
        rw [this] at hold
        omega
      · simp [h1, h2, hold]
  · rcases le_total c.2 (-d.2) with hmin | hmin
    · have hne : ¬ c.1 = d.1 := fun hh => hdc hh.symm
      refine ⟨c, hc, ?_, ?_⟩
      · simp only [decide_eq_true_eq]
        omega
      · simp [Function.comp, hne, min_eq_left hmin]
    · refine ⟨d, hd, ?_, ?_⟩
      · simp only [decide_eq_true_eq]
        omega
      · simp [Function.comp, min_eq_right hmin]

theorem simplifyGo_correct :
    ∀ (fuel : Nat) (pos : List (Nat × Int)),
      (pos.map Prod.fst).Nodup →
      (pos.map Prod.snd).sum = 0 →
      countNZ pos ≤ fuel →
      ∀ e ∈ applyTxs pos (simplifyGo fuel pos), e.2 = 0 := by
  intro fuel
  induction fuel with
  | zero =>
      intro pos hnd hsum hcnt e he
      have h0 : countNZ pos = 0 := Nat.le_zero.mp hcnt
      rw [countNZ] at h0
      have he' : e ∈ pos := by simpa [simplifyGo, applyTxs] using he
      by_contra hxne
      have hpos0 : 0 < pos.countP (fun x => x.2 ≠ 0) :=
        List.countP_pos_iff.mpr ⟨e, he', by simpa using hxne⟩
      omega
  | succ fuel ih =>
      intro pos hnd hsum hcnt e he
      rcases hcred : (pos.filter (fun x => 0 < x.2)).argmax (fun x => x.2) with _ | c
      · have hfil : pos.filter (fun x => 0 < x.2) = [] := List.argmax_eq_none.mp hcred
        have hnonpos : ∀ x ∈ pos, x.2 ≤ 0 := by
          intro x hx
          by_contra hgt
          have hmemf : x ∈ pos.filter (fun x => 0 < x.2) :=
            List.mem_filter.mpr ⟨hx, by simpa using (by omega : 0 < x.2)⟩
          rw [hfil] at hmemf
          cases hmemf
        have hall := all_zero_of_nonpos_sum (pos.map Prod.snd)
          (by
            intro v hv
            rcases List.mem_map.mp hv with ⟨x, hx, rfl⟩
            exact hnonpos x hx)
          hsum
        have he' : e ∈ pos := by simpa [simplifyGo, hcred, applyTxs] using he
        exact hall e.2 (List.mem_map_of_mem Prod.snd he')
      · rcases hdebt : (pos.filter (fun x => x.2 < 0)).argmax (fun x => -x.2) with _ | d
        · have hfil : pos.filter (fun x => x.2 < 0) = [] := List.argmax_eq_none.mp hdebt
          have hnonneg : ∀ x ∈ pos, 0 ≤ x.2 := by
            intro x hx
            by_contra hlt
            have hmemf : x ∈ pos.filter (fun x => x.2 < 0) :=
              List.mem_filter.mpr ⟨hx, by simpa using (by omega : x.2 < 0)⟩
            rw [hfil] at hmemf
            cases hmemf
          have hall := all_zero_of_nonneg_sum (pos.map Prod.snd)
            (by
              intro v hv
              rcases List.mem_map.mp hv with ⟨x, hx, rfl⟩
              exact hnonneg x hx)
            hsum
          have he' : e ∈ pos := by simpa [simplifyGo, hcred, hdebt, applyTxs] using he
          exact hall e.2 (List.mem_map_of_mem Prod.snd he')
        · have hcmem : c ∈ pos ∧ 0 < c.2 := by
            have hmem := List.argmax_mem (Option.mem_def.mpr hcred)
            have hmf := List.mem_filter.mp hmem
            exact ⟨hmf.1, by simpa using hmf.2⟩
          have hdmem : d ∈ pos ∧ d.2 < 0 := by
            have hmem := List.argmax_mem (Option.mem_def.mpr hdebt)
            have hmf := List.mem_filter.mp hmem
            exact ⟨hmf.1, by simpa using hmf.2⟩
          have hdc : d.1 ≠ c.1 := by
            intro h
            have hde := List.inj_on_of_nodup_map hnd hdmem.1 hcmem.1 h
            have hd2 := hdmem.2
            have hc2 := hcmem.2
            rw [hde] at hd2
            omega
          have hstep : simplifyGo (fuel + 1) pos =
              Tx.mk d.1 c.1 (min c.2 (-d.2)) ::
                simplifyGo fuel (applyTx pos (Tx.mk d.1 c.1 (min c.2 (-d.2)))) := by
            simp [simplifyGo, hcred, hdebt]
          have happ : applyTxs pos (simplifyGo (fuel + 1) pos) =
              applyTxs (applyTx pos (Tx.mk d.1 c.1 (min c.2 (-d.2))))
                (simplifyGo fuel (applyTx pos (Tx.mk d.1 c.1 (min c.2 (-d.2))))) := by
            rw [hstep]
            rfl
          rw [happ] at he
          refine ih (applyTx pos (Tx.mk d.1 c.1 (min c.2 (-d.2)))) ?_ ?_ ?_ e he
          · rw [applyTx_keys]
            exact hnd
          · exact applyTx_sum_zero pos c d _ hnd hcmem.1 hdmem.1 hdc hsum
          · have hlt := countNZ_applyTx_lt pos c d hnd hcmem.1 hdmem.1 hcmem.2 hdmem.2
            omega

/-- Claim C6 (spec-modelled): applying the transactions emitted by the
settlement simplifier as payments against the net positions that produced
them drives every participant's remaining position to exactly zero,
whenever the positions belong to distinct users and conserve money (sum
to zero, which the ledger guarantees). -/
theorem claimC6_theorem (pos : List (Nat × Int))
    (hnd : (pos.map Prod.fst).Nodup) (hsum : (pos.map Prod.snd).sum = 0) :
    ∀ e ∈ applyTxs pos (simplifySettlements pos), e.2 = 0 :=
  simplifyGo_correct pos.length pos hnd hsum
    (by rw [countNZ]; exact List.countP_le_length _)

/-- Witness for C6: positions +$20, −$10, −$10 for users 1, 2, 3 are
fully re-zeroed by applying the emitted plan. -/
theorem claimC6_witness :
    ([(1, 2000), (2, -1000), (3, -1000)].map (Prod.fst (α := Nat) (β := Int))).Nodup ∧
    ([(1, 2000), (2, -1000), (3, -1000)].map (Prod.snd (α := Nat) (β := Int))).sum = 0 ∧
    ∀ e ∈ applyTxs [(1, 2000), (2, -1000), (3, -1000)]
        (simplifySettlements [(1, 2000), (2, -1000), (3, -1000)]), e.2 = 0 :=
  ⟨by decide, by decide,
    claimC6_theorem [(1, 2000), (2, -1000), (3, -1000)] (by decide) (by decide)⟩

end Splitly
